import Mathlib

/-!
Verification of the `Value` module of react-forms (src/Value.js).

The module implements an immutable form-state tree: a `ValueRoot` owns the
document, schema, params, two error lists and callbacks, while every `Value`
(root or branch) is a view of such a root at a key path.  Mutating methods
build a new root via the copy-on-write helper `createRoot`, optionally invoke
the root's `onChange` callback, and return a value re-selected at the same key
path on the new root.

Modelling conventions:
* JavaScript strings are modelled as `List Char`; `join('.')` becomes
  `List.intercalate ['.']`.
* JavaScript object identity of error records is modelled by a `ref` tag:
  two records are the same heap object exactly when they carry the same
  `ref`.  `indexOf` (strict `===` search) therefore compares `ref` tags.
* The `onChange` callback is opaque data of type `Ω`; operations return,
  next to their result, the list of `onChange` invocations they perform,
  each recorded as its argument pair `(nextRoot, keyPath)`.
* The module-level mutable flag `suppressUpdateContextual` is modelled by
  explicit state passing (an explicit `ctx : Bool` argument to the methods,
  and a state-transformer model for the `suppressUpdate` helper).
* The external collaborators (the document updater `update`, the params
  object spread, the schema capability) are abstract function parameters.
-/

namespace ReactForms

/-- A key-path segment (a field name or a stringified index), as the list of
its characters. -/
abbrev Seg : Type := List Char

/-- A key path: an ordered list of segments; the empty list denotes the
root. -/
abbrev KeyPath : Type := List Seg

/-- An error record.  `field` is the dotted path string (as a character
list); `ref` models JavaScript object identity (two records are the same
heap object exactly when they share a `ref`); `info` stands for all the
remaining attributes of the record. -/
structure ErrorRecord where
  ref : Nat
  field : List Char
  info : String
deriving Repr, DecidableEq

/-- `['data'].concat(keyPath).join('.')` — the dotted field string denoting
`keyPath`. -/
def joinField (keyPath : KeyPath) : List Char :=
  List.intercalate ['.'] ("data".toList :: keyPath)

/-- `filterErrorListByKeyPath` (src/Value.js:28–31): keep the errors whose
`field` is exactly the dotted string denoting `keyPath`. -/
def filterErrorListByKeyPath (errorList : List ErrorRecord) (keyPath : KeyPath) :
    List ErrorRecord :=
  let field := joinField keyPath
  errorList.filter fun error => error.field == field

/-- `filterErrorListByKeyPathPrefix` (src/Value.js:33–43): on the empty key
path, the whole list; otherwise keep the errors whose `field` equals the
dotted string, or starts with it (`slice(0, length) === field`) immediately
followed by a `'.'` character (`field[length] === '.'`). -/
def filterErrorListByKeyPathPrefix (errorList : List ErrorRecord) (keyPath : KeyPath) :
    List ErrorRecord :=
  if keyPath.length = 0 then
    errorList
  else
    let field := joinField keyPath
    let length := field.length
    errorList.filter fun error =>
      error.field == field ||
      (error.field.take length == field && error.field[length]? == some '.')

/-- The state owned by a `ValueRoot` (src/Value.js:158–171): schema, document
(`value`), `onChange` callback, params, the validation error list
(`_errorList`), the external error list (`_externalErrorList`) and the
pluggable validator.  `D`, `S`, `P` are the types of documents, schemas and
params; `Ω` is the opaque type of the `onChange` callback value. -/
structure ValueRoot (D S P Ω : Type) where
  schema : S
  value : D
  onChange : Ω
  params : P
  errorList : List ErrorRecord
  externalErrorList : List ErrorRecord
  validate : S → D → List ErrorRecord

/-- A `Value` is a view of a root at a key path: the shared methods of the JS
`Value` base class only ever use `this.root` and `this.keyPath`.  A
`ValueRoot` is the view with the empty key path, a `ValueBranch` one with a
non-empty key path. -/
structure Value (D S P Ω : Type) where
  root : ValueRoot D S P Ω
  keyPath : KeyPath

variable {D S P Ω : Type}

/-- A `ValueRoot` seen as a `Value`: its `root` accessor returns itself and
its `keyPath` is the empty path (src/Value.js:162–163, 173–175). -/
def ValueRoot.toValue (r : ValueRoot D S P Ω) : Value D S P Ω :=
  ⟨r, []⟩

/-- Modelled from the spec: `makeKeyPath` (src/keyPath.js, whose source is
not included) normalizes a key into an ordered sequence of segments; on an
input that is already a normalized sequence of segments it returns that
sequence unchanged. -/
def makeKeyPath (key : KeyPath) : KeyPath := key

/-- `Value.select` (src/Value.js:47–54): normalize the key; if the resulting
key path is empty return `this`, otherwise a branch of the same root at
`this.keyPath.concat(keyPath)`. -/
def Value.select (v : Value D S P Ω) (key : KeyPath) : Value D S P Ω :=
  let keyPath := makeKeyPath key
  if keyPath.length = 0 then v
  else ⟨v.root, v.keyPath ++ keyPath⟩

/-- `Value.errorList` (src/Value.js:56–62): exact-match filter of the root's
validation error list concatenated with the exact-match filter of the root's
external error list, both at `this.keyPath`. -/
def Value.errorList (v : Value D S P Ω) : List ErrorRecord :=
  let validateErrorList := filterErrorListByKeyPath v.root.errorList v.keyPath
  let externalErrorList := filterErrorListByKeyPath v.root.externalErrorList v.keyPath
  validateErrorList ++ externalErrorList

/-- `Value.completeErrorList` (src/Value.js:64–70): same as `errorList` but
with the prefix filter. -/
def Value.completeErrorList (v : Value D S P Ω) : List ErrorRecord :=
  let validateErrorList := filterErrorListByKeyPathPrefix v.root.errorList v.keyPath
  let externalErrorList := filterErrorListByKeyPathPrefix v.root.externalErrorList v.keyPath
  validateErrorList ++ externalErrorList

/-- A partial root update, as passed to `createRoot`: present fields
override, absent fields are taken from the current root
(`{...values, ...update}`). -/
structure RootUpdate (D S P Ω : Type) where
  schema : Option S := none
  value : Option D := none
  onChange : Option Ω := none
  params : Option P := none
  errorList : Option (List ErrorRecord) := none
  externalErrorList : Option (List ErrorRecord) := none
  validate : Option (S → D → List ErrorRecord) := none

/-- `Value.createRoot` (src/Value.js:72–83): copy-on-write constructor — take
the current root's seven fields and override those present in `upd`. -/
def Value.createRoot (v : Value D S P Ω) (upd : RootUpdate D S P Ω) :
    ValueRoot D S P Ω :=
  { schema := upd.schema.getD v.root.schema
    value := upd.value.getD v.root.value
    onChange := upd.onChange.getD v.root.onChange
    params := upd.params.getD v.root.params
    errorList := upd.errorList.getD v.root.errorList
    externalErrorList := upd.externalErrorList.getD v.root.externalErrorList
    validate := upd.validate.getD v.root.validate }

/-- One `onChange` invocation, recorded as its argument pair
`(nextRoot, keyPath)`. -/
abbrev Notification (D S P Ω : Type) : Type := ValueRoot D S P Ω × KeyPath

/-- `Value.updateParams` (src/Value.js:85–92).  The JS object spread
`{...this.root.params, ...params}` is modelled by the abstract merge
function `merge`.  `supp` is the per-call `suppressUpdate` argument, `ctx`
the ambient `suppressUpdateContextual` flag. -/
def Value.updateParams (merge : P → P → P) (v : Value D S P Ω) (params : P)
    (supp ctx : Bool) : Value D S P Ω × List (Notification D S P Ω) :=
  let params := merge v.root.params params
  let nextRoot := v.createRoot { params := some params }
  let notes := if !supp && !ctx then [(nextRoot, v.keyPath)] else []
  (nextRoot.toValue.select v.keyPath, notes)

/-- `Value.update` (src/Value.js:94–107).  `u` is the external document
updater `update(value, keyPath, valueUpdate, schema)` imported from
src/update.js. -/
def Value.update (u : D → KeyPath → D → S → D) (v : Value D S P Ω)
    (valueUpdate : D) (supp ctx : Bool) :
    Value D S P Ω × List (Notification D S P Ω) :=
  let value :=
    if v.keyPath.length = 0 then valueUpdate
    else u v.root.value v.keyPath valueUpdate v.root.schema
  let errorList := v.root.validate v.root.schema value
  let nextRoot := v.createRoot { value := some value, errorList := some errorList }
  let notes := if !supp && !ctx then [(nextRoot, v.keyPath)] else []
  (nextRoot.toValue.select v.keyPath, notes)

/-- The argument of `updateError`: a single record or a list of records
(the `Array.isArray(error)` test). -/
inductive ErrorInput where
  | one (error : ErrorRecord)
  | many (errorList : List ErrorRecord)

/-- `{...error, field}`: copy the record, overriding its `field`
attribute. -/
def ErrorRecord.withField (error : ErrorRecord) (field : List Char) : ErrorRecord :=
  { error with field := field }

/-- `Value.updateError` (src/Value.js:109–123): replace the whole external
error list with the given record(s), each stamped with the dotted field
string of `this.keyPath`. -/
def Value.updateError (v : Value D S P Ω) (error : ErrorInput)
    (supp ctx : Bool) : Value D S P Ω × List (Notification D S P Ω) :=
  let field := joinField v.keyPath
  let externalErrorList :=
    match error with
    | .many errorList => errorList.map fun error => error.withField field
    | .one error => [error.withField field]
  let nextRoot := v.createRoot { externalErrorList := some externalErrorList }
  let notes := if !supp && !ctx then [(nextRoot, v.keyPath)] else []
  (nextRoot.toValue.select v.keyPath, notes)

/-- `Value.addError` (src/Value.js:125–136): append one stamped record to the
existing external error list. -/
def Value.addError (v : Value D S P Ω) (error : ErrorRecord)
    (supp ctx : Bool) : Value D S P Ω × List (Notification D S P Ω) :=
  let error := error.withField (joinField v.keyPath)
  let externalErrorList := v.root.externalErrorList ++ [error]
  let nextRoot := v.createRoot { externalErrorList := some externalErrorList }
  let notes := if !supp && !ctx then [(nextRoot, v.keyPath)] else []
  (nextRoot.toValue.select v.keyPath, notes)

/-- `Value.removeError` (src/Value.js:138–151): `indexOf` searches for the
first entry that is the same heap object as `error` (same `ref`); if found,
`slice(0)` + `splice(idx, 1)` remove exactly that entry; otherwise `this` is
returned and nothing is notified. -/
def Value.removeError (v : Value D S P Ω) (error : ErrorRecord)
    (supp ctx : Bool) : Value D S P Ω × List (Notification D S P Ω) :=
  match v.root.externalErrorList.findIdx? (fun e => e.ref == error.ref) with
  | some idx =>
    let externalErrorList := v.root.externalErrorList.eraseIdx idx
    let nextRoot := v.createRoot { externalErrorList := some externalErrorList }
    let notes := if !supp && !ctx then [(nextRoot, v.keyPath)] else []
    (nextRoot.toValue.select v.keyPath, notes)
  | none => (v, [])

/-- `ValueRoot.setSchema` (src/Value.js:182–185): re-validate the current
document against the new schema and build a new root with the new `schema`
and `errorList`.  The method body contains no `onChange` call, so the
notification list is empty. -/
def ValueRoot.setSchema (r : ValueRoot D S P Ω) (schema : S) :
    ValueRoot D S P Ω × List (Notification D S P Ω) :=
  let errorList := r.validate schema r.value
  (r.toValue.createRoot { schema := some schema, errorList := some errorList }, [])

/-- `suppressUpdate` (src/Value.js:19–26), with the module flag
`suppressUpdateContextual` modelled by explicit state passing: a transaction
`tx` receives the flag value and returns a result — `Except.error` models a
raised exception — together with the flag value it leaves behind.  The
helper sets the flag to `true`, runs `tx`, and, in a `finally` block (hence
on the normal and on the exceptional path alike), assigns `false` to the
flag. -/
def suppressUpdate {E A : Type} (tx : Bool → Except E A × Bool) (_flag : Bool) :
    Except E A × Bool :=
  let res := tx true
  (res.1, false)

/-! ### Spec-side formulations

These definitions follow the words of the specification, to be compared with
the source-derived definitions above. -/

/-- The spec's exact-match field string: `"data"` when the key path is empty,
otherwise `"data."` followed by the dot-joined segments. -/
def specFieldAt (keyPath : KeyPath) : List Char :=
  if keyPath = [] then "data".toList
  else "data".toList ++ '.' :: List.intercalate ['.'] keyPath

/-- The spec's exact-match predicate: the record's `field` equals the
exact-match string of `keyPath`. -/
def specExactMatch (keyPath : KeyPath) (error : ErrorRecord) : Bool :=
  error.field == specFieldAt keyPath

/-- The spec's prefix-match predicate: the record's `field` equals the
exact-match string of `keyPath`, or starts with that string immediately
followed by a `'.'` separator. -/
def specPrefixMatch (keyPath : KeyPath) (error : ErrorRecord) : Bool :=
  error.field == specFieldAt keyPath ||
  (specFieldAt keyPath ++ ['.']).isPrefixOf error.field

/-! ### Concrete sample values

Used by the closed statements (witnesses and counterexamples) below; all
type parameters are instantiated with `Nat`. -/

/-- A concrete root with no errors and a validator that returns no errors. -/
def sampleRootC1 : ValueRoot Nat Nat Nat Nat :=
  ⟨0, 0, 0, 0, [], [], fun _ _ => []⟩

/-- A concrete root value holding one external error with `ref = 5`. -/
def sampleValC1 : Value Nat Nat Nat Nat :=
  ⟨⟨0, 0, 0, 0, [], [⟨5, "data".toList, "x"⟩], fun _ _ => []⟩, []⟩

/-- An error record with `ref = 0`. -/
def sampleErrA : ErrorRecord := ⟨0, "data".toList, "m"⟩

/-- An error record that is structurally identical to `sampleErrA` in every
attribute except its identity (`ref = 1`). -/
def sampleErrB : ErrorRecord := ⟨1, "data".toList, "m"⟩

/-- A concrete root value whose external error list is
`[sampleErrA, sampleErrB]`. -/
def sampleValC4 : Value Nat Nat Nat Nat :=
  ⟨⟨0, 0, 0, 0, [], [sampleErrA, sampleErrB], fun _ _ => []⟩, []⟩

/-- A concrete branch value at key path `["a"]` with validation errors at
`data.a`, `data.a.b` and `data.ab`. -/
def sampleValC7 : Value Nat Nat Nat Nat :=
  ⟨⟨0, 0, 0, 0,
    [⟨0, "data.a".toList, "m"⟩, ⟨1, "data.a.b".toList, "k"⟩, ⟨2, "data.ab".toList, "w"⟩],
    [], fun _ _ => []⟩, ["a".toList]⟩

/-- A concrete root value with one validation and one external error. -/
def sampleValC7root : Value Nat Nat Nat Nat :=
  ⟨⟨0, 0, 0, 0, [⟨0, "data.a".toList, "m"⟩], [⟨1, "data".toList, "n"⟩],
    fun _ _ => []⟩, []⟩

/-- The inner transaction of the nested-suppression scenario: it just reads
the flag and returns it. -/
def innerTx : Bool → Except Unit Bool × Bool :=
  fun s => (Except.ok s, s)

/-- The outer transaction of the nested-suppression scenario: it runs an
inner `suppressUpdate` scope and reports the flag value it observes right
after the inner call exits. -/
def outerTx : Bool → Except Unit Bool × Bool :=
  fun s =>
    let inner := suppressUpdate innerTx s
    (Except.ok inner.2, inner.2)

/-! ### Helper lemmas -/

theorem intercalate_cons₂ {α : Type} (sep : List α) (a b : List α)
    (t : List (List α)) :
    List.intercalate sep (a :: b :: t) = a ++ sep ++ List.intercalate sep (b :: t) := by
  simp [List.intercalate, List.intersperse_cons_cons, List.flatten_cons, List.append_assoc]

theorem joinField_eq_specFieldAt (keyPath : KeyPath) :
    joinField keyPath = specFieldAt keyPath := by
  cases keyPath with
  | nil => simp [joinField, specFieldAt, List.intercalate]
  | cons s t =>
    simp only [joinField, specFieldAt, intercalate_cons₂]
    simp

theorem select_root (v : Value D S P Ω) (key : KeyPath) :
    (v.select key).root = v.root := by
  simp only [Value.select, makeKeyPath]
  split <;> rfl

theorem select_keyPath (v : Value D S P Ω) (key : KeyPath) :
    (v.select key).keyPath = v.keyPath ++ key := by
  simp only [Value.select, makeKeyPath]
  split
  · rename_i h
    rw [List.length_eq_zero.mp h, List.append_nil]
  · rfl

theorem findIdx?_first {α : Type} (p : α → Bool) (pre : List α) (x : α)
    (post : List α) (hpre : ∀ y ∈ pre, p y = false) (hx : p x = true) :
    ∀ i, List.findIdx? p (pre ++ x :: post) i = some (pre.length + i) := by
  induction pre with
  | nil => intro i; simp [List.findIdx?_cons, hx]
  | cons a t ih =>
    intro i
    have ha : p a = false := hpre a (List.mem_cons_self a t)
    have ht : ∀ y ∈ t, p y = false := fun y hy => hpre y (List.mem_cons_of_mem a hy)
    simp only [List.cons_append, List.findIdx?_cons, ha, Bool.false_eq_true, if_false,
      ih ht (i + 1)]
    congr 1
    simp
    omega

theorem eraseIdx_at_length {α : Type} (pre : List α) (x : α) (post : List α) :
    (pre ++ x :: post).eraseIdx pre.length = pre ++ post := by
  induction pre with
  | nil => simp
  | cons a t ih => simp [List.eraseIdx_cons_succ, ih]

theorem take_getElem?_characterization {α : Type} (f l : List α) (a : α) :
    (l.take f.length = f ∧ l[f.length]? = some a) ↔ (f ++ [a]) <+: l := by
  constructor
  · rintro ⟨h1, h2⟩
    have hlen : f.length ≤ l.length := by
      have := congrArg List.length h1
      simp [List.length_take] at this
      omega
    have hlt : f.length < l.length := by
      rcases Nat.lt_or_ge f.length l.length with h | h
      · exact h
      · exfalso
        have : l[f.length]? = none := by
          rw [List.getElem?_eq_none_iff]
          exact h
        rw [this] at h2
        exact Option.noConfusion h2
    have hget : l[f.length] = a := by
      have := List.getElem?_eq_getElem hlt
      rw [this] at h2
      exact Option.some.inj h2
    refine ⟨l.drop (f.length + 1), ?_⟩
    calc f ++ [a] ++ l.drop (f.length + 1)
        = f ++ (a :: l.drop (f.length + 1)) := by simp
      _ = l.take f.length ++ (l[f.length] :: l.drop (f.length + 1)) := by rw [h1, hget]
      _ = l.take f.length ++ l.drop f.length := by rw [List.drop_eq_getElem_cons hlt]
      _ = l := List.take_append_drop _ l
  · rintro ⟨t, ht⟩
    have hl : l = f ++ (a :: t) := by
      rw [← ht]; simp
    subst hl
    constructor
    · exact List.take_left f (a :: t)
    · rw [List.getElem?_append_right (Nat.le_refl _)]
      simp

theorem prefixFilter_eq_specPrefixMatch (keyPath : KeyPath) (hne : keyPath ≠ [])
    (errorList : List ErrorRecord) :
    filterErrorListByKeyPathPrefix errorList keyPath =
      errorList.filter (specPrefixMatch keyPath) := by
  have hlen : ¬ keyPath.length = 0 := fun h => hne (List.length_eq_zero.mp h)
  simp only [filterErrorListByKeyPathPrefix, hlen, if_false]
  refine List.filter_congr fun e _ => ?_
  rw [Bool.eq_iff_iff]
  simp only [Bool.or_eq_true, Bool.and_eq_true, beq_iff_eq, specPrefixMatch,
    List.isPrefixOf_iff_prefix, joinField_eq_specFieldAt]
  constructor
  · rintro (h | h)
    · exact Or.inl h
    · exact Or.inr ((take_getElem?_characterization _ _ _).mp h)
  · rintro (h | h)
    · exact Or.inl h
    · exact Or.inr ((take_getElem?_characterization _ _ _).mpr h)

theorem exactFilter_eq_specExactMatch (keyPath : KeyPath)
    (errorList : List ErrorRecord) :
    filterErrorListByKeyPath errorList keyPath =
      errorList.filter (specExactMatch keyPath) := by
  simp only [filterErrorListByKeyPath, joinField_eq_specFieldAt]
  exact List.filter_congr fun e _ => rfl

/-! ### The claims -/

/-- Claim C3: `update` replaces the document at `this.keyPath` (the whole
document when the key path is empty) using the external updater, recomputes
the validation error list with the root's validator, leaves
`externalErrorList`, `schema`, `params`, `onChange` and `validate` unchanged,
and returns the value re-selected at the same key path on the new root. -/
theorem update_frame (u : D → KeyPath → D → S → D) (v : Value D S P Ω)
    (d : D) (supp ctx : Bool) :
    ((v.update u d supp ctx).1.root.value =
      if v.keyPath.length = 0 then d
      else u v.root.value v.keyPath d v.root.schema) ∧
    (v.update u d supp ctx).1.root.errorList =
      v.root.validate v.root.schema (v.update u d supp ctx).1.root.value ∧
    (v.update u d supp ctx).1.root.externalErrorList = v.root.externalErrorList ∧
    (v.update u d supp ctx).1.root.schema = v.root.schema ∧
    (v.update u d supp ctx).1.root.params = v.root.params ∧
    (v.update u d supp ctx).1.root.onChange = v.root.onChange ∧
    (v.update u d supp ctx).1.root.validate = v.root.validate ∧
    (v.update u d supp ctx).1.keyPath = v.keyPath := by
  refine ⟨?_, ?_, ?_, ?_, ?_, ?_, ?_, ?_⟩ <;>
    simp [Value.update, Value.createRoot, ValueRoot.toValue, select_root, select_keyPath]

/-- Claim C6: `errorList` is the exact-match filter of the root's validation
error list at `this.keyPath`, concatenated with the exact-match filter of the
root's external error list, where the exact-match string is `"data"`
dot-joined with the key path (just `"data"` when the key path is empty). -/
theorem errorList_spec (v : Value D S P Ω) :
    Value.errorList v =
      v.root.errorList.filter (specExactMatch v.keyPath) ++
      v.root.externalErrorList.filter (specExactMatch v.keyPath) := by
  simp [Value.errorList, exactFilter_eq_specExactMatch]

/-- Claim C7: `completeErrorList` uses prefix matching: on the empty key path
it returns both full lists (validation first); on a non-empty key path it
keeps exactly the records whose `field` equals the `"data"`-prefixed
dot-joined string or starts with it immediately followed by `'.'`; in
particular a record with field `"data.ab"` is not selected at key path
`["a"]`. -/
theorem completeErrorList_spec (v : Value D S P Ω) :
    (v.keyPath = [] →
      Value.completeErrorList v = v.root.errorList ++ v.root.externalErrorList) ∧
    (v.keyPath ≠ [] →
      Value.completeErrorList v =
        v.root.errorList.filter (specPrefixMatch v.keyPath) ++
        v.root.externalErrorList.filter (specPrefixMatch v.keyPath)) ∧
    filterErrorListByKeyPathPrefix [⟨0, "data.ab".toList, "w"⟩] ["a".toList] = [] := by
  refine ⟨?_, ?_, ?_⟩
  · intro h
    simp [Value.completeErrorList, filterErrorListByKeyPathPrefix, h]
  · intro h
    simp [Value.completeErrorList, prefixFilter_eq_specPrefixMatch _ h]
  · decide

/-- Witness for C7: at the root (empty key path) `completeErrorList` returns
both full lists; at the branch `["a"]` it keeps the `data.a` and `data.a.b`
records and drops the `data.ab` one. -/
theorem completeErrorList_spec_witness :
    Value.completeErrorList sampleValC7root =
      [⟨0, "data.a".toList, "m"⟩, ⟨1, "data".toList, "n"⟩] ∧
    Value.completeErrorList sampleValC7 =
      [⟨0, "data.a".toList, "m"⟩, ⟨1, "data.a.b".toList, "k"⟩] := by
  constructor
  · have h := (completeErrorList_spec sampleValC7root).1 rfl
    rw [h]
    decide
  · have h := (completeErrorList_spec sampleValC7).2.1 (by decide)
    rw [h]
    decide

/-- Claim C8: `select` composes by concatenation and the empty selection is
the identity: `v.select(p).select(q)` has key path `v.keyPath ++ p ++ q` and
the same root as `v`, and `v.select([])` is `v` itself. -/
theorem select_comp (v : Value D S P Ω) (p q : KeyPath) :
    ((v.select p).select q).keyPath = v.keyPath ++ p ++ q ∧
    ((v.select p).select q).root = v.root ∧
    v.select [] = v := by
  refine ⟨?_, ?_, ?_⟩
  · rw [select_keyPath, select_keyPath]
  · rw [select_root, select_root]
  · rfl

/-- Claim C5: `updateError` replaces the whole external error list with
exactly the supplied record(s) — one element for a single record, an
equal-length same-order list for a list — each stamped with the
`"data"`-prefixed dot-joined `field` of `this.keyPath` (overwriting any
caller-supplied `field`); calling it twice with the same argument yields the
same external error list as calling it once. -/
theorem updateError_spec (v : Value D S P Ω) (e : ErrorRecord)
    (es : List ErrorRecord) (supp ctx : Bool) :
    (v.updateError (.one e) supp ctx).1.root.externalErrorList =
      [e.withField (specFieldAt v.keyPath)] ∧
    (v.updateError (.many es) supp ctx).1.root.externalErrorList =
      es.map (fun x => x.withField (specFieldAt v.keyPath)) ∧
    ((v.updateError (.one e) supp ctx).1.updateError (.one e) supp ctx).1.root.externalErrorList =
      (v.updateError (.one e) supp ctx).1.root.externalErrorList ∧
    ((v.updateError (.many es) supp ctx).1.updateError (.many es) supp ctx).1.root.externalErrorList =
      (v.updateError (.many es) supp ctx).1.root.externalErrorList := by
  refine ⟨?_, ?_, ?_, ?_⟩ <;>
    simp [Value.updateError, Value.createRoot, ValueRoot.toValue, select_root,
      select_keyPath, joinField_eq_specFieldAt]

/-- Claim C10: `updateError` with an empty list clears all external errors:
the new root's `externalErrorList` is `[]` while its validation error list,
document, schema and params are unchanged. -/
theorem updateError_empty_clears (v : Value D S P Ω) (supp ctx : Bool) :
    (v.updateError (.many []) supp ctx).1.root.externalErrorList = [] ∧
    (v.updateError (.many []) supp ctx).1.root.errorList = v.root.errorList ∧
    (v.updateError (.many []) supp ctx).1.root.value = v.root.value ∧
    (v.updateError (.many []) supp ctx).1.root.schema = v.root.schema ∧
    (v.updateError (.many []) supp ctx).1.root.params = v.root.params := by
  refine ⟨?_, ?_, ?_, ?_, ?_⟩ <;>
    simp [Value.updateError, Value.createRoot, ValueRoot.toValue, select_root]

/-- Claim C9: suppression does not influence the produced state — for each
mutating operation and fixed input, the returned value is the same whatever
the per-call `suppressUpdate` argument and the ambient flag are; only the
notification list differs. -/
theorem suppression_noninterference (u : D → KeyPath → D → S → D)
    (merge : P → P → P) (v : Value D S P Ω) (d : D) (p : P)
    (e : ErrorRecord) (ei : ErrorInput) (supp ctx supp' ctx' : Bool) :
    (v.update u d supp ctx).1 = (v.update u d supp' ctx').1 ∧
    (v.updateParams merge p supp ctx).1 = (v.updateParams merge p supp' ctx').1 ∧
    (v.updateError ei supp ctx).1 = (v.updateError ei supp' ctx').1 ∧
    (v.addError e supp ctx).1 = (v.addError e supp' ctx').1 ∧
    (v.removeError e supp ctx).1 = (v.removeError e supp' ctx').1 := by
  refine ⟨rfl, rfl, rfl, rfl, ?_⟩
  cases h : v.root.externalErrorList.findIdx? (fun y => y.ref == e.ref) <;>
    simp [Value.removeError, h]

/-- Claim C4: `removeError` compares by reference identity (the `ref` tag
modelling object identity), not structural equality: it removes the first
entry of the external error list that is the same object as `error`, keeping
all other entries in order; when no reference-identical entry exists it
returns the receiver itself with no notification, whatever the other
attributes of the stored records are. -/
theorem removeError_spec (v : Value D S P Ω) (e : ErrorRecord)
    (supp ctx : Bool) :
    ((∀ x ∈ v.root.externalErrorList, x.ref ≠ e.ref) →
      v.removeError e supp ctx = (v, [])) ∧
    (∀ pre x post, v.root.externalErrorList = pre ++ x :: post →
      x.ref = e.ref → (∀ y ∈ pre, y.ref ≠ e.ref) →
      (v.removeError e supp ctx).1.root.externalErrorList = pre ++ post ∧
      (v.removeError e supp ctx).1.keyPath = v.keyPath ∧
      (v.removeError e supp ctx).1.root.errorList = v.root.errorList) := by
  constructor
  · intro h
    have hnone : v.root.externalErrorList.findIdx? (fun y => y.ref == e.ref) = none := by
      rw [List.findIdx?_eq_none_iff]
      intro x hx
      exact beq_eq_false_iff_ne.mpr (h x hx)
    simp [Value.removeError, hnone]
  · intro pre x post hsplit hx hpre
    have hsome : v.root.externalErrorList.findIdx? (fun y => y.ref == e.ref) =
        some pre.length := by
      rw [hsplit]
      have h := findIdx?_first (fun y => y.ref == e.ref) pre x post
        (fun y hy => beq_eq_false_iff_ne.mpr (hpre y hy)) (beq_iff_eq.mpr hx) 0
      simpa using h
    refine ⟨?_, ?_, ?_⟩ <;>
    · simp only [Value.removeError, hsome]
      simp [Value.createRoot, ValueRoot.toValue, select_root, select_keyPath,
        hsplit, eraseIdx_at_length]

/-- Witness for C4: removing a record that is structurally identical to the
stored ones but a different object (`ref = 2`) is a no-op with no
notification; removing `sampleErrB` itself removes exactly the second entry
and keeps `sampleErrA`. -/
theorem removeError_spec_witness :
    sampleValC4.removeError ⟨2, "data".toList, "m"⟩ false false = (sampleValC4, []) ∧
    (sampleValC4.removeError sampleErrB false false).1.root.externalErrorList =
      [sampleErrA] := by
  constructor
  · exact (removeError_spec sampleValC4 ⟨2, "data".toList, "m"⟩ false false).1 (by decide)
  · exact ((removeError_spec sampleValC4 sampleErrB false false).2
      [sampleErrA] sampleErrB [] rfl rfl (by decide)).1

/-- Claim C1 counterexample: `ValueRoot.setSchema` performs no `onChange`
invocation at all, so the claim that every state-producing operation —
`setSchema` included — invokes `onChange` exactly once fails on it. -/
theorem setSchema_no_onChange_counterexample :
    (sampleRootC1.setSchema 1).2.length ≠ 1 := by
  simp [ValueRoot.setSchema]

/-- Claim C1, amended: each of the non-suppressed `update`, `updateParams`,
`updateError`, `addError` and found `removeError` invokes `onChange` exactly
once with the newly created root and the edited key path, while
`ValueRoot.setSchema` never invokes `onChange`. -/
theorem onChange_once (u : D → KeyPath → D → S → D) (merge : P → P → P)
    (v : Value D S P Ω) (d : D) (p : P) (e : ErrorRecord) (ei : ErrorInput)
    (r : ValueRoot D S P Ω) (s : S)
    (hfound : ∃ x ∈ v.root.externalErrorList, x.ref = e.ref) :
    (v.update u d false false).2 =
      [((v.update u d false false).1.root, v.keyPath)] ∧
    (v.updateParams merge p false false).2 =
      [((v.updateParams merge p false false).1.root, v.keyPath)] ∧
    (v.updateError ei false false).2 =
      [((v.updateError ei false false).1.root, v.keyPath)] ∧
    (v.addError e false false).2 =
      [((v.addError e false false).1.root, v.keyPath)] ∧
    (v.removeError e false false).2 =
      [((v.removeError e false false).1.root, v.keyPath)] ∧
    (r.setSchema s).2 = [] := by
  refine ⟨?_, ?_, ?_, ?_, ?_, rfl⟩ <;>
    first
    | simp [Value.update, Value.updateParams, Value.updateError, Value.addError,
        ValueRoot.toValue, select_root]
    | skip
  rcases hfound with ⟨x, hx, href⟩
  cases h : v.root.externalErrorList.findIdx? (fun y => y.ref == e.ref) with
  | none =>
    exfalso
    have hfalse := List.findIdx?_eq_none_iff.mp h x hx
    rw [beq_eq_false_iff_ne] at hfalse
    exact hfalse href
  | some idx =>
    simp [Value.removeError, h, ValueRoot.toValue, select_root]

/-- Witness for C1 (amended): on a concrete root value, `addError` notifies
exactly once with the new root and the root key path, and `setSchema`
notifies nobody. -/
theorem onChange_once_witness :
    (sampleValC1.addError ⟨5, "f".toList, "y"⟩ false false).2 =
      [((sampleValC1.addError ⟨5, "f".toList, "y"⟩ false false).1.root,
        ([] : KeyPath))] ∧
    (sampleRootC1.setSchema 1).2 = [] := by
  have h := onChange_once (fun a _ _ _ => a) (fun a _ => a) sampleValC1 0 0
    ⟨5, "f".toList, "y"⟩ (.one ⟨7, "g".toList, "z"⟩) sampleRootC1 1
    ⟨⟨5, "data".toList, "x"⟩, by decide, rfl⟩
  exact ⟨h.2.2.2.1, h.2.2.2.2.2⟩

/-- Claim C2 counterexample: inside an outer `suppressUpdate` scope, right
after a nested inner `suppressUpdate` call exits, the flag is `false`, not
`true` — the `finally` block assigns `false` instead of restoring the entry
value (observed on entry flag `true` as well). -/
theorem suppressUpdate_counterexample :
    (suppressUpdate outerTx false).1 = Except.ok false ∧
    (suppressUpdate innerTx true).2 ≠ true := by
  exact ⟨rfl, by simp [suppressUpdate]⟩

/-- Claim C2, amended: `suppressUpdate` sets the flag to `true`, runs `tx`,
and on every exit path (normal return or exception) sets the flag to `false`
— the module default — regardless of the value the flag had on entry; in
particular, after a nested inner call exits, the flag is `false`. -/
theorem suppressUpdate_spec {E A : Type} (tx : Bool → Except E A × Bool)
    (s s' : Bool) :
    (suppressUpdate tx s).1 = (tx true).1 ∧
    (suppressUpdate tx s).2 = false ∧
    suppressUpdate tx s = suppressUpdate tx s' :=
  ⟨rfl, rfl, rfl⟩

end ReactForms
